import Mathlib

/-!
Verification development for the CTAPHID packet/message layer and the
per-device touch state machine of `u2f-touch-detector`.

The Rust source is embedded shallowly:

* `src/packet.rs`: a 64-byte HID report is a `RawPacket` (4-byte channel,
  one command-or-sequence byte, 59 payload bytes); `RawPacket.classify`
  views it as an `InitPacket` (top bit of the discriminator set; the first
  two payload bytes are the big-endian 16-bit message length, the rest is
  a 57-byte payload) or a `Continuation` (top bit clear).
* `src/message.rs`: `Message.readFrom` mirrors `Message::read_from`,
  consuming reports from a list (the stream of device reads); the fixed
  `[u8; FIDO_CTAPHID_MAX_MESSAGE_SIZE]` output buffer is modelled as the
  list of bytes written so far, together with the `offset` cursor, and the
  slice bounds check of `buffer[offset..][..n]` is modelled explicitly:
  exceeding the buffer capacity yields the distinguished `Outcome.panic`.
* `src/command.rs`: `Command.decode` mirrors `Command::try_from`; the
  zerocopy `KeepAlive::ref_from` succeeds exactly on payloads whose length
  equals the size of `KeepAlive`, which is one byte.
* `src/device.rs`: `stepFn` mirrors the body of `Device::process_messages`,
  with instants as natural-number milliseconds.
* `src/socket.rs` and `src/notify.rs`: the consumer loops over the event
  stream, with serial strings abstracted to natural-number identifiers and
  the literal text tokens `U2F_1` / `U2F_0` abstracted to `Token.u2f1` /
  `Token.u2f0`.

Errors carried by `eyre::Error` in the source are represented by the
enumeration `ProtoError`, one constructor per `bail!` / `ensure!` /
`ok_or_eyre` site.
-/

namespace U2F

/-- `FIDO_CTAPHID_MAX_RECORD_SIZE` from `src/packet.rs`: a HID report is 64 bytes. -/
def FIDO_CTAPHID_MAX_RECORD_SIZE : Nat := 64

/-- `FIDO_CTAPHID_MAX_MESSAGE_SIZE` from `src/message.rs`: `127 * FIDO_CTAPHID_MAX_RECORD_SIZE`. -/
def FIDO_CTAPHID_MAX_MESSAGE_SIZE : Nat := 127 * FIDO_CTAPHID_MAX_RECORD_SIZE

/-- The command byte constants of `packet.rs` / `command.rs` (`0x80 | value`). -/
def KEEPALIVE : Nat := 0x80 ||| 0x3b

/-- `Command::CBOR` / `Kind::CBOR`. -/
def CBOR : Nat := 0x80 ||| 0x10

/-- `Status::PROCESSING` (keep-alive status byte 1). -/
def PROCESSING : Nat := 1

/-- `Status::UPNEEDED` (keep-alive status byte 2). -/
def UPNEEDED : Nat := 2

/-- `RawPacket` from `src/packet.rs`: the layout of one 64-byte HID report,
4-byte channel, one command-or-sequence byte, 59 payload bytes. -/
structure RawPacket where
  channel : List Nat
  seqOrCmd : Nat
  payload : List Nat
deriving DecidableEq

/-- `Init` from `src/packet.rs`, as produced by reinterpreting a `RawPacket`:
channel, command byte, decoded big-endian 16-bit length, 57-byte payload. -/
structure InitPacket where
  channel : List Nat
  command : Nat
  length : Nat
  payload : List Nat
deriving DecidableEq

/-- `Continuation` from `src/packet.rs`: channel, sequence byte, 59-byte payload. -/
structure Continuation where
  channel : List Nat
  sequence : Nat
  payload : List Nat
deriving DecidableEq

/-- `Packet` from `src/packet.rs`. -/
inductive Packet where
  | init (i : InitPacket)
  | continuation (c : Continuation)
deriving DecidableEq

/-- `RawPacket::classify` from `src/packet.rs`: a report whose fifth byte has the
top bit clear is a continuation; otherwise it is an init packet, whose length
field is the big-endian 16-bit value formed by the first two payload bytes of
the raw layout and whose payload is the remaining 57 bytes. -/
def RawPacket.classify (r : RawPacket) : Packet :=
  if r.seqOrCmd < 0x80 then
    .continuation ⟨r.channel, r.seqOrCmd, r.payload⟩
  else
    .init ⟨r.channel, r.seqOrCmd,
      256 * r.payload.headD 0 + (r.payload.drop 1).headD 0,
      r.payload.drop 2⟩

/-- One constructor per error construction site in the source
(`ensure!` / `bail!` / `ok_or_eyre`). -/
inductive ProtoError where
  | outOfSpecLength
  | initBeforeComplete
  | wrongChannel
  | wrongSequence
  | invalidKeepAlive
deriving DecidableEq

/-- `Command` from `src/command.rs` / `src/message.rs`: the decoded
interpretation of a reassembled message. -/
inductive Command where
  | keepAlive (status : Nat)
  | other (kind : Nat) (payload : List Nat)
deriving DecidableEq

/-- `Command::try_from((kind, payload))` from `src/command.rs`: for the
keep-alive kind, `KeepAlive::ref_from(payload)` succeeds exactly when the
payload length equals `size_of::<KeepAlive>() = 1`, parsing that byte as the
status; every other kind passes the payload through uninterpreted. -/
def Command.decode (kind : Nat) (payload : List Nat) : Except ProtoError Command :=
  if kind = KEEPALIVE then
    match payload with
    | [s] => .ok (.keepAlive s)
    | _ => .error .invalidKeepAlive
  else .ok (.other kind payload)

/-- `Message` from `src/message.rs`: channel plus decoded command. -/
structure Message where
  channel : List Nat
  command : Command
deriving DecidableEq

/-- The length of the reassembled payload held by a `Message` (a decoded
keep-alive always came from a 1-byte payload). -/
def Message.payloadLength : Message → Nat
  | ⟨_, .keepAlive _⟩ => 1
  | ⟨_, .other _ p⟩ => p.length

/-- Result of one `Message::read_from` call: a message, an error returned to
the caller, an exhausted stream (a blocking device read, modelled as the I/O
edge of the stream), or a Rust panic from an out-of-bounds buffer slice. -/
inductive Outcome where
  | ok (m : Message)
  | error (e : ProtoError)
  | ioError
  | panic
deriving DecidableEq

/-- `Message::try_from((channel, kind, payload))` at the end of
`Message::read_from`. -/
def finish (ch : List Nat) (k : Nat) (payload : List Nat) : Outcome :=
  match Command.decode k payload with
  | .ok c => .ok ⟨ch, c⟩
  | .error e => .error e

/-- The continuation-reading loop of `Message::read_from` (`src/message.rs`):
while `offset < length`, read a packet; a new init aborts; a continuation must
carry the init's channel and the running sequence number; its 59-byte payload
is copied at `offset` — modelled with the explicit bounds check of
`buffer[offset..][..n]` against the 8128-byte buffer, whose failure is the
`panic` outcome — then `offset` and `sequence` advance.  Returns the outcome
together with the unread remainder of the stream. -/
def assembleLoop (ch : List Nat) (k : Nat) (L : Nat) :
    List RawPacket → List Nat → Nat → Nat → Outcome × List RawPacket
  | [], buffer, offset, _seq =>
    if offset < L then (.ioError, [])
    else (finish ch k (buffer.take L), [])
  | p :: rest, buffer, offset, seq =>
    if offset < L then
      match p.classify with
      | .init _ => (.error .initBeforeComplete, rest)
      | .continuation c =>
        if c.channel ≠ ch then (.error .wrongChannel, rest)
        else if c.sequence ≠ seq then (.error .wrongSequence, rest)
        else if offset + c.payload.length ≤ FIDO_CTAPHID_MAX_MESSAGE_SIZE then
          assembleLoop ch k L rest (buffer ++ c.payload) (offset + c.payload.length) (seq + 1)
        else (.panic, rest)
    else (finish ch k (buffer.take L), p :: rest)

/-- `Message::read_from` from `src/message.rs`: skip continuations until an
init arrives, validate its declared length against
`FIDO_CTAPHID_MAX_MESSAGE_SIZE`, seed the buffer with the init payload, then
run the continuation loop with sequence counter 0. -/
def readFrom : List RawPacket → Outcome × List RawPacket
  | [] => (.ioError, [])
  | p :: rest =>
    match p.classify with
    | .continuation _ => readFrom rest
    | .init i =>
      if i.length ≤ FIDO_CTAPHID_MAX_MESSAGE_SIZE then
        assembleLoop i.channel i.command i.length rest i.payload i.payload.length 0
      else (.error .outOfSpecLength, rest)

/-! ### Encoding a payload into reports (test-side construction for the
round-trip property: one init report plus 59-byte continuation chunks with
sequence numbers counting up from the given start). -/

/-- Right-pad a byte list with zeros to length `n`. -/
def padTo (n : Nat) (l : List Nat) : List Nat := l ++ List.replicate (n - l.length) 0

/-- Number of 59-byte continuation chunks needed for `n` remaining bytes. -/
def numChunks (n : Nat) : Nat := (n + 58) / 59

/-- Fuel-indexed continuation encoder (the fuel is an upper bound on the
remaining byte count, making the recursion structural). -/
def encodeContsAux (ch : List Nat) : Nat → Nat → List Nat → List RawPacket
  | 0, _, _ => []
  | f + 1, s, rest =>
    if rest = [] then []
    else ⟨ch, s, padTo 59 (rest.take 59)⟩ :: encodeContsAux ch f (s + 1) (rest.drop 59)

/-- Continuation reports for the remaining bytes `rest`, with sequence
numbers `s, s+1, …`. -/
def encodeConts (ch : List Nat) (s : Nat) (rest : List Nat) : List RawPacket :=
  encodeContsAux ch rest.length s rest

/-- Encode a whole payload as one init report (declared length =
`payload.length`, big-endian, 57-byte init payload) followed by the needed
continuation reports with sequence numbers `0, 1, 2, …`. -/
def encodeMessage (ch : List Nat) (k : Nat) (payload : List Nat) : List RawPacket :=
  ⟨ch, k, payload.length / 256 :: payload.length % 256 :: padTo 57 (payload.take 57)⟩ ::
    encodeConts ch 0 (payload.drop 57)

lemma padTo_length {n : Nat} {l : List Nat} (h : l.length ≤ n) : (padTo n l).length = n := by
  simp [padTo]
  omega

lemma padTo_eq_self {n : Nat} {l : List Nat} (h : l.length = n) : padTo n l = l := by
  simp [padTo, h]

lemma encodeContsAux_nil (ch : List Nat) (f s : Nat) : encodeContsAux ch f s [] = [] := by
  cases f <;> simp [encodeContsAux]

lemma encodeContsAux_congr (ch : List Nat) :
    ∀ f₁ f₂ s (rest : List Nat), rest.length ≤ f₁ → rest.length ≤ f₂ →
      encodeContsAux ch f₁ s rest = encodeContsAux ch f₂ s rest := by
  intro f₁
  induction f₁ with
  | zero =>
    intro f₂ s rest h₁ _
    have : rest = [] := List.eq_nil_of_length_eq_zero (Nat.le_zero.mp h₁)
    subst this
    simp [encodeContsAux_nil]
  | succ f ih =>
    intro f₂ s rest h₁ h₂
    cases rest with
    | nil => simp [encodeContsAux_nil]
    | cons a t =>
      cases f₂ with
      | zero => simp at h₂
      | succ g =>
        simp only [encodeContsAux, if_neg (List.cons_ne_nil a t)]
        simp only [List.length_cons] at h₁ h₂
        refine congrArg _ (ih g (s + 1) ((a :: t).drop 59) ?_ ?_) <;>
          simp only [List.length_drop, List.length_cons] <;> omega

lemma encodeConts_cons (ch : List Nat) (s : Nat) {rest : List Nat} (h : rest ≠ []) :
    encodeConts ch s rest =
      ⟨ch, s, padTo 59 (rest.take 59)⟩ :: encodeConts ch (s + 1) (rest.drop 59) := by
  obtain ⟨n, hn⟩ : ∃ n, rest.length = n + 1 := by
    cases rest with
    | nil => exact absurd rfl h
    | cons a t => exact ⟨t.length, by simp⟩
  unfold encodeConts
  rw [hn]
  simp only [encodeContsAux, if_neg h]
  refine congrArg _ (encodeContsAux_congr ch n (rest.drop 59).length (s + 1) (rest.drop 59) ?_ le_rfl)
  simp [List.length_drop]
  omega

lemma numChunks_zero : numChunks 0 = 0 := by simp [numChunks]

lemma numChunks_pos {n : Nat} (h : 1 ≤ n) : 1 ≤ numChunks n := by
  simp only [numChunks]
  omega

lemma numChunks_step {n : Nat} (h : 1 ≤ n) : numChunks n = 1 + numChunks (n - 59) := by
  simp only [numChunks]
  omega

lemma numChunks_mono {m n : Nat} (h : m ≤ n) : numChunks m ≤ numChunks n :=
  Nat.div_le_div_right (by omega)

lemma take_append_pad (buffer rest z : List Nat) :
    (buffer ++ (rest ++ z)).take (buffer.length + rest.length) = buffer ++ rest := by
  rw [List.take_append_eq_append_take, List.take_of_length_le (by omega),
    Nat.add_sub_cancel_left, List.take_append_eq_append_take,
    List.take_of_length_le le_rfl, Nat.sub_self, List.take_zero, List.append_nil]

/-- Feeding the encoded continuation chunks for `rest` to the assembly loop in
a state whose buffer already holds `L - rest.length` bytes completes the
message: the loop consumes every chunk (sequence numbers matching) and
finishes with the buffer extended by exactly `rest`. -/
lemma assembleLoop_encodeContsAux (ch : List Nat) (k L : Nat) :
    ∀ (fuel : Nat) (rest buffer : List Nat) (s : Nat),
      rest.length ≤ fuel →
      L = buffer.length + rest.length →
      s + numChunks rest.length ≤ 128 →
      buffer.length + 59 * numChunks rest.length ≤ FIDO_CTAPHID_MAX_MESSAGE_SIZE →
      assembleLoop ch k L (encodeContsAux ch fuel s rest) buffer buffer.length s
        = (finish ch k (buffer ++ rest), []) := by
  intro fuel
  induction fuel with
  | zero =>
    intro rest buffer s hf h1 _ _
    have : rest = [] := List.eq_nil_of_length_eq_zero (Nat.le_zero.mp hf)
    subst this
    simp only [encodeContsAux_nil, assembleLoop, List.length_nil, Nat.add_zero] at h1 ⊢
    rw [if_neg (by omega), h1, List.take_length, List.append_nil]
  | succ f ih =>
    intro rest buffer s hf h1 h2 h3
    by_cases hr : rest = []
    · subst hr
      simp only [encodeContsAux_nil, assembleLoop, List.length_nil, Nat.add_zero] at h1 ⊢
      rw [if_neg (by omega), h1, List.take_length, List.append_nil]
    · have hrl : 1 ≤ rest.length := by
        cases rest with
        | nil => exact absurd rfl hr
        | cons a t => simp
      have hchunks : 1 ≤ numChunks rest.length := numChunks_pos hrl
      have hs : s < 0x80 := by omega
      have hpadlen : (padTo 59 (rest.take 59)).length = 59 :=
        padTo_length (by simp [List.length_take])
      simp only [encodeContsAux, if_neg hr, assembleLoop]
      rw [if_pos (by omega)]
      simp only [RawPacket.classify, if_pos hs]
      rw [if_neg (by simp), if_neg (by simp), if_pos (by rw [hpadlen]; omega), hpadlen]
      by_cases h59 : rest.length ≤ 59
      · have hdrop : rest.drop 59 = [] := List.drop_eq_nil_of_le h59
        have htake : rest.take 59 = rest := List.take_of_length_le h59
        rw [hdrop, encodeContsAux_nil]
        simp only [assembleLoop]
        rw [if_neg (by omega), htake]
        simp only [padTo]
        rw [h1, take_append_pad]
      · have htl : (rest.take 59).length = 59 := by
          simp [List.length_take]
          omega
        have hpad : padTo 59 (rest.take 59) = rest.take 59 := padTo_eq_self htl
        rw [hpad]
        have hlen59 : (buffer ++ rest.take 59).length = buffer.length + 59 := by
          simp [List.length_append, htl]
        have := ih (rest.drop 59) (buffer ++ rest.take 59) (s + 1)
          (by simp only [List.length_drop]; omega)
          (by rw [hlen59]; simp only [List.length_drop]; omega)
          (by simp only [List.length_drop]
              have hstep := numChunks_step hrl
              omega)
          (by rw [hlen59]
              simp only [List.length_drop]
              have hstep := numChunks_step hrl
              omega)
        rw [hlen59] at this
        rw [this, List.append_assoc, List.take_append_drop]

/-- Round-trip helper: feeding the encoding of any payload of length at most
7609 bytes (57 + 128 × 59, the largest length whose continuation sequence
numbers all stay below 0x80) to `readFrom` reassembles exactly that payload
and consumes the whole stream. -/
lemma readFrom_encode (ch : List Nat) (k : Nat) (payload : List Nat)
    (hk : 0x80 ≤ k) (hL : payload.length ≤ 7609) :
    readFrom (encodeMessage ch k payload) = (finish ch k payload, []) := by
  have htk : (payload.take 57).length = min 57 payload.length := List.length_take 57 payload
  have hplen : (padTo 57 (payload.take 57)).length = 57 := padTo_length (by omega)
  simp only [encodeMessage, readFrom, RawPacket.classify, if_neg (by omega : ¬ k < 0x80),
    List.headD_cons, List.drop_succ_cons, List.drop_zero, Nat.div_add_mod]
  rw [if_pos (by simp only [FIDO_CTAPHID_MAX_MESSAGE_SIZE, FIDO_CTAPHID_MAX_RECORD_SIZE]; omega),
    hplen]
  by_cases hsmall : payload.length ≤ 57
  · have hdrop : payload.drop 57 = [] := List.drop_eq_nil_of_le hsmall
    have htake : payload.take 57 = payload := List.take_of_length_le hsmall
    rw [hdrop, htake]
    show assembleLoop ch k payload.length (encodeContsAux ch 0 0 []) (padTo 57 payload) 57 0 = _
    simp only [encodeContsAux, assembleLoop]
    rw [if_neg (by omega), padTo, List.take_left]
  · have h57 : (payload.take 57).length = 57 := by omega
    have := assembleLoop_encodeContsAux ch k payload.length (payload.drop 57).length
      (payload.drop 57) (payload.take 57) 0 le_rfl
      (by simp only [List.length_drop]; omega)
      (by simp only [List.length_drop, numChunks]; omega)
      (by simp only [List.length_drop, numChunks, h57, FIDO_CTAPHID_MAX_MESSAGE_SIZE,
            FIDO_CTAPHID_MAX_RECORD_SIZE]
          omega)
    rw [h57] at this
    rw [padTo_eq_self h57]
    show assembleLoop ch k payload.length
      (encodeContsAux ch (payload.drop 57).length 0 (payload.drop 57)) (payload.take 57) 57 0 = _
    rw [this, List.take_append_drop]

lemma classify_continuation {p : RawPacket} {c : Continuation}
    (h : p.classify = .continuation c) :
    c.sequence < 0x80 ∧ c.payload = p.payload := by
  unfold RawPacket.classify at h
  split at h
  case isTrue hlt =>
    injection h with h2
    subst h2
    exact ⟨hlt, rfl⟩
  case isFalse => simp at h

lemma classify_init {p : RawPacket} {i : InitPacket}
    (h : p.classify = .init i) : i.payload = p.payload.drop 2 := by
  unfold RawPacket.classify at h
  split at h
  case isTrue => simp at h
  case isFalse =>
    injection h with h2
    subst h2
    rfl

lemma assembleLoop_cons_init {p : RawPacket} {i : InitPacket} {ch : List Nat} {k L : Nat}
    {rest : List RawPacket} {buffer : List Nat} {offset seq : Nat}
    (hc : p.classify = .init i) (hlt : offset < L) :
    assembleLoop ch k L (p :: rest) buffer offset seq = (.error .initBeforeComplete, rest) := by
  simp only [assembleLoop, if_pos hlt, hc]

lemma assembleLoop_cons_cont {p : RawPacket} {c : Continuation} {ch : List Nat} {k L : Nat}
    {rest : List RawPacket} {buffer : List Nat} {offset seq : Nat}
    (hc : p.classify = .continuation c) (hlt : offset < L) :
    assembleLoop ch k L (p :: rest) buffer offset seq =
      (if c.channel ≠ ch then (.error .wrongChannel, rest)
       else if c.sequence ≠ seq then (.error .wrongSequence, rest)
       else if offset + c.payload.length ≤ FIDO_CTAPHID_MAX_MESSAGE_SIZE then
         assembleLoop ch k L rest (buffer ++ c.payload) (offset + c.payload.length) (seq + 1)
       else (.panic, rest)) := by
  simp only [assembleLoop, if_pos hlt, hc]

/-- `finish` never panics: it yields a message or a decode error. -/
lemma finish_ne_panic (ch : List Nat) (k : Nat) (payload : List Nat) :
    finish ch k payload ≠ .panic := by
  unfold finish
  split <;> simp

/-- Invariant behind the absence of a buffer overrun: entering the
continuation loop of `Message::read_from` with `offset ≤ 57 + 59 · seq` (true
at entry, where `offset = 57` and `seq = 0`, and preserved by every accepted
59-byte continuation), every accepted copy lands within the 8128-byte buffer,
because an accepted continuation forces `seq < 0x80` — its sequence byte has
the top bit clear — so `offset + 59 ≤ 57 + 59 · 128 = 7609 ≤ 8128`. -/
lemma assembleLoop_ne_panic (ch : List Nat) (k L : Nat) :
    ∀ (stream : List RawPacket) (buffer : List Nat) (offset seq : Nat),
      (∀ p ∈ stream, p.payload.length = 59) →
      offset ≤ 57 + 59 * seq →
      (assembleLoop ch k L stream buffer offset seq).1 ≠ .panic := by
  intro stream
  induction stream with
  | nil =>
    intro buffer offset seq _ _
    simp only [assembleLoop]
    split
    · simp
    · exact finish_ne_panic ch k (buffer.take L)
  | cons p rest ih =>
    intro buffer offset seq hwf hoff
    by_cases hlt : offset < L
    case neg =>
      simp only [assembleLoop, if_neg hlt]
      exact finish_ne_panic ch k (buffer.take L)
    case pos =>
      cases hc : p.classify with
      | init i =>
        rw [assembleLoop_cons_init hc hlt]
        simp
      | continuation c =>
        rw [assembleLoop_cons_cont hc hlt]
        obtain ⟨hseq, hpay⟩ := classify_continuation hc
        have hclen : c.payload.length = 59 := by
          rw [hpay]
          exact hwf p (List.mem_cons_self p rest)
        by_cases hch : c.channel ≠ ch
        · rw [if_pos hch]
          simp
        · rw [if_neg hch]
          by_cases hsq : c.sequence ≠ seq
          · rw [if_pos hsq]
            simp
          · rw [if_neg hsq]
            have hseqeq : c.sequence = seq := not_not.mp hsq
            rw [if_pos (by
              rw [hclen]
              simp only [FIDO_CTAPHID_MAX_MESSAGE_SIZE, FIDO_CTAPHID_MAX_RECORD_SIZE]
              omega)]
            exact ih (buffer ++ c.payload) (offset + c.payload.length) (seq + 1)
              (fun q hq => hwf q (List.mem_cons_of_mem p hq))
              (by rw [hclen]; omega)

/-- A decoded command's payload length is bounded by the length of the bytes
handed to the decoder (a keep-alive decodes only from a 1-byte payload). -/
lemma decode_ok_length {k : Nat} {pl : List Nat} {c : Command} (ch : List Nat)
    (h : Command.decode k pl = .ok c) :
    Message.payloadLength ⟨ch, c⟩ ≤ max 1 pl.length := by
  unfold Command.decode at h
  split at h
  · split at h
    · injection h with h1
      subst h1
      simp [Message.payloadLength]
    · simp at h
  · injection h with h1
    subst h1
    simp [Message.payloadLength]

lemma finish_ok_length {ch : List Nat} {k L : Nat} {buffer : List Nat} {m : Message}
    (hL : L ≤ FIDO_CTAPHID_MAX_MESSAGE_SIZE)
    (h : finish ch k (buffer.take L) = .ok m) :
    m.payloadLength ≤ FIDO_CTAPHID_MAX_MESSAGE_SIZE := by
  unfold finish at h
  cases hdec : Command.decode k (buffer.take L) with
  | ok c =>
    rw [hdec] at h
    injection h with h1
    subst h1
    have := decode_ok_length ch hdec
    have hlt : (buffer.take L).length ≤ L := by
      simp [List.length_take]
    have hmax : 1 ≤ FIDO_CTAPHID_MAX_MESSAGE_SIZE := by
      simp [FIDO_CTAPHID_MAX_MESSAGE_SIZE, FIDO_CTAPHID_MAX_RECORD_SIZE]
    omega
  | error e =>
    rw [hdec] at h
    simp at h

lemma assembleLoop_ok_length (ch : List Nat) (k L : Nat)
    (hL : L ≤ FIDO_CTAPHID_MAX_MESSAGE_SIZE) :
    ∀ (stream : List RawPacket) (buffer : List Nat) (offset seq : Nat) (m : Message)
      (rest : List RawPacket),
      assembleLoop ch k L stream buffer offset seq = (.ok m, rest) →
      m.payloadLength ≤ FIDO_CTAPHID_MAX_MESSAGE_SIZE := by
  intro stream
  induction stream with
  | nil =>
    intro buffer offset seq m rest h
    simp only [assembleLoop] at h
    split at h
    · simp at h
    · exact finish_ok_length hL (congrArg Prod.fst h)
  | cons p tail ih =>
    intro buffer offset seq m rest h
    by_cases hlt : offset < L
    case neg =>
      simp only [assembleLoop, if_neg hlt] at h
      exact finish_ok_length hL (congrArg Prod.fst h)
    case pos =>
      cases hc : p.classify with
      | init i =>
        rw [assembleLoop_cons_init hc hlt] at h
        simp at h
      | continuation c =>
        rw [assembleLoop_cons_cont hc hlt] at h
        by_cases hch : c.channel ≠ ch
        · rw [if_pos hch] at h
          simp at h
        · rw [if_neg hch] at h
          by_cases hsq : c.sequence ≠ seq
          · rw [if_pos hsq] at h
            simp at h
          · rw [if_neg hsq] at h
            by_cases hfit : offset + c.payload.length ≤ FIDO_CTAPHID_MAX_MESSAGE_SIZE
            · rw [if_pos hfit] at h
              exact ih _ _ _ m rest h
            · rw [if_neg hfit] at h
              simp at h

lemma readFrom_cons_init {p : RawPacket} {i : InitPacket} {rest : List RawPacket}
    (hc : p.classify = .init i) :
    readFrom (p :: rest) =
      (if i.length ≤ FIDO_CTAPHID_MAX_MESSAGE_SIZE then
        assembleLoop i.channel i.command i.length rest i.payload i.payload.length 0
      else (.error .outOfSpecLength, rest)) := by
  simp only [readFrom, hc]

lemma readFrom_cons_cont {p : RawPacket} {c : Continuation} {rest : List RawPacket}
    (hc : p.classify = .continuation c) :
    readFrom (p :: rest) = readFrom rest := by
  simp only [readFrom, hc]

/-- `Message::read_from` never panics on any stream of 64-byte reports
(i.e. reports whose raw payload field holds 59 bytes). -/
lemma readFrom_ne_panic :
    ∀ (stream : List RawPacket), (∀ p ∈ stream, p.payload.length = 59) →
      (readFrom stream).1 ≠ .panic := by
  intro stream
  induction stream with
  | nil =>
    intro _
    simp [readFrom]
  | cons p tail ih =>
    intro hwf
    cases hc : p.classify with
    | continuation c =>
      rw [readFrom_cons_cont hc]
      exact ih (fun q hq => hwf q (List.mem_cons_of_mem p hq))
    | init i =>
      rw [readFrom_cons_init hc]
      by_cases hlen : i.length ≤ FIDO_CTAPHID_MAX_MESSAGE_SIZE
      · rw [if_pos hlen]
        have hp : i.payload.length = 57 := by
          rw [classify_init hc]
          simp only [List.length_drop]
          rw [hwf p (List.mem_cons_self p tail)]

        exact assembleLoop_ne_panic i.channel i.command i.length tail i.payload
          i.payload.length 0 (fun q hq => hwf q (List.mem_cons_of_mem p hq)) (by omega)
      · rw [if_neg hlen]
        simp

/-- Any message successfully returned by `Message::read_from` has a payload of
at most `FIDO_CTAPHID_MAX_MESSAGE_SIZE` bytes. -/
lemma readFrom_ok_length :
    ∀ (stream : List RawPacket) (m : Message) (rest : List RawPacket),
      readFrom stream = (.ok m, rest) → m.payloadLength ≤ FIDO_CTAPHID_MAX_MESSAGE_SIZE := by
  intro stream
  induction stream with
  | nil =>
    intro m rest h
    simp [readFrom] at h
  | cons p tail ih =>
    intro m rest h
    cases hc : p.classify with
    | continuation c =>
      rw [readFrom_cons_cont hc] at h
      exact ih m rest h
    | init i =>
      rw [readFrom_cons_init hc] at h
      by_cases hlen : i.length ≤ FIDO_CTAPHID_MAX_MESSAGE_SIZE
      · rw [if_pos hlen] at h
        exact assembleLoop_ok_length i.channel i.command i.length hlen tail i.payload
          i.payload.length 0 m rest h
      · rw [if_neg hlen] at h
        simp at h

/-! ### The per-device hysteresis state machine (`src/device.rs`). -/

/-- `HYSTERESIS_DURATION` from `src/device.rs`, in milliseconds. -/
def HYSTERESIS_DURATION : Nat := 400

/-- The mutable state of the `Device::process_messages` loop: the hysteresis
deadline (an instant, in milliseconds) and the channel that opened it. -/
structure DevState where
  deadline : Option Nat
  channel : List Nat
deriving DecidableEq

/-- Initial state of the loop: `deadline = None`, `channel = Channel([0; 4])`. -/
def devInit : DevState := ⟨none, List.replicate 4 0⟩

/-- One loop iteration's input: either a reassembled message arriving at
instant `now`, or a `None` read result ("no response") checked at `now`. -/
inductive DevStep where
  | msg (now : Nat) (m : Message)
  | noMsg (now : Nat)
deriving DecidableEq

/-- One iteration of the `Device::process_messages` loop body
(`src/device.rs`): the new state together with the payload of the `tx.send`
call it performs, if any (`true` = touch needed, `false` = touch no longer
needed). -/
def stepFn (s : DevState) : DevStep → DevState × Option Bool
  | .noMsg now =>
    match s.deadline with
    | some d => if d ≤ now then (⟨none, s.channel⟩, some false) else (s, none)
    | none => (s, none)
  | .msg now m =>
    match m.command with
    | .keepAlive status =>
      if status = UPNEEDED then
        (⟨some (now + HYSTERESIS_DURATION), m.channel⟩,
          if s.deadline = none then some true else none)
      else if status = PROCESSING ∧ s.deadline ≠ none ∧ s.channel = m.channel then
        (⟨some (now + HYSTERESIS_DURATION), s.channel⟩, none)
      else (s, none)
    | .other kind _ =>
      if kind = CBOR ∧ s.deadline ≠ none then (⟨none, s.channel⟩, some false)
      else (s, none)

/-- Iterate `stepFn` over a list of inputs, collecting the emitted events in
order. -/
def runSteps : DevState → List DevStep → DevState × List Bool
  | s, [] => (s, [])
  | s, st :: rest =>
    ((runSteps (stepFn s st).1 rest).1,
      (stepFn s st).2.toList ++ (runSteps (stepFn s st).1 rest).2)

/-- Every step either stays silent and keeps `deadline.isNone` unchanged, or
emits exactly the current value of `deadline.isNone` and flips it: `true` is
only emitted from (and clears) the no-deadline state, `false` only from (and
into) the armed state. -/
lemma stepFn_deadline (s : DevState) (st : DevStep) :
    ((stepFn s st).2 = none ∧ (stepFn s st).1.deadline.isNone = s.deadline.isNone) ∨
    ((stepFn s st).2 = some s.deadline.isNone ∧
      (stepFn s st).1.deadline.isNone = !s.deadline.isNone) := by
  cases st with
  | noMsg now =>
    cases hd : s.deadline with
    | none =>
      left
      simp [stepFn, hd]
    | some d =>
      by_cases hle : d ≤ now
      · right
        simp [stepFn, hd, hle]
      · left
        simp [stepFn, hd, hle]
  | msg now m =>
    obtain ⟨mch, mcmd⟩ := m
    cases mcmd with
    | keepAlive status =>
      by_cases h2 : status = UPNEEDED
      · cases hd : s.deadline with
        | none =>
          right
          simp [stepFn, h2, hd]
        | some d =>
          left
          simp [stepFn, h2, hd]
      · by_cases hp : status = PROCESSING ∧ s.deadline ≠ none ∧ s.channel = mch
        · left
          obtain ⟨hp1, hnd, hp3⟩ := hp
          cases hd : s.deadline with
          | none => exact absurd hd hnd
          | some d => simp [stepFn, h2, hp1, hp3, hd]
        · left
          simp [stepFn, h2, hp]
    | other kind pl =>
      by_cases hc : kind = CBOR ∧ s.deadline ≠ none
      · right
        obtain ⟨hc1, hnd⟩ := hc
        cases hd : s.deadline with
        | none => exact absurd hd hnd
        | some d => simp [stepFn, hc1, hd]
      · left
        simp [stepFn, hc]

/-- Events emitted by a run alternate, and the first one reveals whether the
starting state had a deadline armed. -/
lemma runSteps_chain :
    ∀ (steps : List DevStep) (s : DevState),
      List.Chain' (fun a b => a ≠ b) (runSteps s steps).2 ∧
      (∀ b, ((runSteps s steps).2).head? = some b → b = s.deadline.isNone) := by
  intro steps
  induction steps with
  | nil =>
    intro s
    simp [runSteps]
  | cons st rest ih =>
    intro s
    rcases stepFn_deadline s st with ⟨h1, h2⟩ | ⟨h1, h2⟩
    · constructor
      · simp only [runSteps, h1, Option.toList_none, List.nil_append]
        exact (ih _).1
      · intro b hb
        simp only [runSteps, h1, Option.toList_none, List.nil_append] at hb
        rw [(ih _).2 b hb, h2]
    · constructor
      · simp only [runSteps, h1, Option.toList_some, List.singleton_append]
        rw [List.chain'_cons']
        refine ⟨fun b hb => ?_, (ih _).1⟩
        rw [(ih _).2 b hb, h2]
        cases s.deadline <;> simp
      · intro b hb
        simp only [runSteps, h1, Option.toList_some, List.singleton_append,
          List.head?_cons, Option.some.injEq] at hb
        rw [← hb]

/-! ### The status-socket aggregator (`src/socket.rs`). -/

/-- The literal text tokens written to socket clients: `u2f1` stands for the
text `U2F_1`, `u2f0` for `U2F_0`. -/
inductive Token where
  | u2f1
  | u2f0
deriving DecidableEq

/-- `HashSet::insert` on the active-serial set, abstracted as a
duplicate-free list of serial identifiers. -/
def setInsert (active : List Nat) (serial : Nat) : List Nat :=
  if serial ∈ active then active else serial :: active

/-- One iteration of the aggregator thread's loop in `socket::run`
(`src/socket.rs`): on `needed = true` it sends `U2F_1` if the active set was
empty and then inserts the serial; on `needed = false` it removes the serial
and then sends `U2F_0` if the set is now empty. -/
def socketStep (active : List Nat) (serial : Nat) (needed : Bool) :
    List Nat × Option Token :=
  if needed then
    (setInsert active serial, if active = [] then some .u2f1 else none)
  else
    (active.erase serial, if active.erase serial = [] then some .u2f0 else none)

/-- Iterate `socketStep` over the received event stream, collecting the sent
tokens in order. -/
def socketRun : List Nat → List (Nat × Bool) → List Nat × List Token
  | active, [] => (active, [])
  | active, (serial, needed) :: rest =>
    ((socketRun (socketStep active serial needed).1 rest).1,
      (socketStep active serial needed).2.toList ++
        (socketRun (socketStep active serial needed).1 rest).2)

lemma setInsert_ne_nil (active : List Nat) (serial : Nat) : setInsert active serial ≠ [] := by
  unfold setInsert
  split
  · intro h
    subst h
    simp_all
  · simp

/-- From a non-empty active set, the first token a run can emit is `U2F_0`
(emptying the set emits it in the same step, and `U2F_1` needs an empty set). -/
lemma socketRun_head :
    ∀ (evs : List (Nat × Bool)) (active : List Nat), active ≠ [] →
      ∀ t, ((socketRun active evs).2).head? = some t → t = .u2f0 := by
  intro evs
  induction evs with
  | nil =>
    intro active _ t ht
    simp [socketRun] at ht
  | cons ev rest ih =>
    intro active hne t ht
    obtain ⟨serial, needed⟩ := ev
    cases needed with
    | true =>
      simp [socketRun, socketStep, hne] at ht
      exact ih (setInsert active serial) (setInsert_ne_nil active serial) t ht
    | false =>
      by_cases he : active.erase serial = []
      · simp [socketRun, socketStep, he] at ht
        first
        | exact ht
        | exact ht.symm
      · simp [socketRun, socketStep, he] at ht
        exact ih (active.erase serial) he t ht

/-- Adjacent-token constraint: a `U2F_1` is never immediately followed by
another `U2F_1` (with only two tokens, the successor of a `U2F_1` must be
`U2F_0`). -/
abbrev tokenPairOk (a b : Token) : Prop := a = Token.u2f1 → b = Token.u2f0

/-- A run never sends two consecutive `U2F_1` tokens. -/
lemma socketRun_chain :
    ∀ (evs : List (Nat × Bool)) (active : List Nat),
      List.Chain' tokenPairOk (socketRun active evs).2 := by
  intro evs
  induction evs with
  | nil =>
    intro active
    simp [socketRun]
  | cons ev rest ih =>
    intro active
    obtain ⟨serial, needed⟩ := ev
    cases needed with
    | false =>
      by_cases he : active.erase serial = []
      · simp only [socketRun]
        simp [socketStep, he]
        rw [List.chain'_cons']
        refine ⟨fun b _ => ?_, ih _⟩
        intro hh
        simp at hh
      · simp only [socketRun]
        simp [socketStep, he]
        exact ih _
    | true =>
      by_cases ha : active = []
      · -- A `U2F_1` send means the set was empty, so the next state is
        -- non-empty and the next token (if any) is `U2F_0`.
        subst ha
        simp only [socketRun]
        simp [socketStep, setInsert]
        rw [List.chain'_cons']
        exact ⟨fun b hb _ => socketRun_head rest [serial] (by simp) b hb, ih _⟩
      · simp only [socketRun]
        simp [socketStep, ha]
        exact ih _

/-! ### The desktop-notification consumer (`src/notify.rs`). -/

/-- Input events to `notify::run`: an edge for a serial; for `needed = true`
edges, `showOk` records whether `notification.show()` succeeded and `handle`
the handle it returned. -/
inductive NotifyEvent where
  | need (serial : Nat) (showOk : Bool) (handle : Nat)
  | clear (serial : Nat)
deriving DecidableEq

/-- One iteration of the loop of `notify::run` (`src/notify.rs`), with the
`HashMap` from serial to notification handle abstracted as an association
list keyed by serial: a `needed = true` edge for a vacant serial shows a
notification and records its handle (when `show()` succeeded); for an
occupied serial it does nothing; a `needed = false` edge for an occupied
serial closes and removes the notification; for a vacant serial it does
nothing. -/
def notifyStep (active : List (Nat × Nat)) : NotifyEvent → List (Nat × Nat)
  | .need serial showOk handle =>
    if serial ∈ active.map Prod.fst then active
    else if showOk then (serial, handle) :: active else active
  | .clear serial =>
    if serial ∈ active.map Prod.fst then active.eraseP (fun e => e.1 == serial)
    else active

/-- Iterate `notifyStep` over the received event stream. -/
def notifyRun : List (Nat × Nat) → List NotifyEvent → List (Nat × Nat)
  | active, [] => active
  | active, ev :: rest => notifyRun (notifyStep active ev) rest

lemma notifyStep_nodup {active : List (Nat × Nat)} (ev : NotifyEvent)
    (h : (active.map Prod.fst).Nodup) : ((notifyStep active ev).map Prod.fst).Nodup := by
  cases ev with
  | need serial showOk handle =>
    by_cases hm : serial ∈ active.map Prod.fst
    · simpa [notifyStep, hm]
    · cases showOk
      · simpa [notifyStep, hm]
      · simp [notifyStep, hm, List.nodup_cons]
        exact h
  | clear serial =>
    by_cases hm : serial ∈ active.map Prod.fst
    · simp only [notifyStep, if_pos hm]
      exact List.Nodup.sublist (List.Sublist.map Prod.fst (List.eraseP_sublist active)) h
    · simpa [notifyStep, hm]

/-- Key uniqueness is an invariant of the notification map. -/
lemma notifyRun_nodup :
    ∀ (evs : List NotifyEvent) (active : List (Nat × Nat)),
      (active.map Prod.fst).Nodup → ((notifyRun active evs).map Prod.fst).Nodup := by
  intro evs
  induction evs with
  | nil =>
    intro active h
    exact h
  | cons ev rest ih =>
    intro active h
    exact ih _ (notifyStep_nodup ev h)

/-! ### The deadline-aware read used by `Device::process_messages`. -/

/-- Modelled from the spec: the deadline-aware variant of
`Message::read_from(device, buffer, deadline)` returning `Option<Message>`
that `Device::process_messages` invokes is not part of the sources under
`src/` (only its caller is), so its read results are modelled from §4.3 of
the spec — one device read yields either one 64-byte report or a timeout
with no bytes available. -/
inductive ReadEvent where
  | report (p : RawPacket)
  | timeout
deriving DecidableEq

/-- Modelled from the spec: outcome of the deadline-aware
`read(device, deadline)` — `Some(message)`, the distinguished "no message
yet" `None`, a protocol/decode error, or an I/O error (stream exhaustion). -/
inductive DOutcome where
  | msg (m : Message)
  | noMsg
  | error (e : ProtoError)
  | ioError
deriving DecidableEq

/-- Modelled from the spec (§4.3, steps 2–6): the continuation loop of the
deadline-aware read; a read that times out at any point aborts the
in-progress assembly entirely and yields `noMsg`. -/
def assembleLoopD (ch : List Nat) (k : Nat) (L : Nat) :
    List ReadEvent → List Nat → Nat → Nat → DOutcome × List ReadEvent
  | [], buffer, offset, _seq =>
    if offset < L then (.ioError, [])
    else
      match Command.decode k (buffer.take L) with
      | .ok c => (.msg ⟨ch, c⟩, [])
      | .error e => (.error e, [])
  | ev :: rest, buffer, offset, seq =>
    if offset < L then
      match ev with
      | .timeout => (.noMsg, rest)
      | .report p =>
        match p.classify with
        | .init _ => (.error .initBeforeComplete, rest)
        | .continuation c =>
          if c.channel ≠ ch then (.error .wrongChannel, rest)
          else if c.sequence ≠ seq then (.error .wrongSequence, rest)
          else assembleLoopD ch k L rest (buffer ++ c.payload)
            (offset + c.payload.length) (seq + 1)
    else
      match Command.decode k (buffer.take L) with
      | .ok c => (.msg ⟨ch, c⟩, ev :: rest)
      | .error e => (.error e, ev :: rest)

/-- Modelled from the spec (§4.3, steps 1–3): the deadline-aware read loop —
a timeout before an init returns `noMsg` immediately, stray continuations are
skipped, and an init starts assembly after length validation. -/
def readFromD : List ReadEvent → DOutcome × List ReadEvent
  | [] => (.ioError, [])
  | .timeout :: rest => (.noMsg, rest)
  | .report p :: rest =>
    match p.classify with
    | .continuation _ => readFromD rest
    | .init i =>
      if i.length ≤ FIDO_CTAPHID_MAX_MESSAGE_SIZE then
        assembleLoopD i.channel i.command i.length rest i.payload i.payload.length 0
      else (.error .outOfSpecLength, rest)

/-! ### Claim theorems -/

/-- Claim C1: for every sequence of 64-byte HID reports (reports whose raw
payload field holds 59 bytes), message assembly never panics — including an
init whose declared length passes the assembler's validation: the sequence
byte of a continuation is below 0x80, so at most 128 continuations are ever
accepted and the furthest write ends at 57 + 128 · 59 = 7609 ≤ 8128.
Misbehaving-device input surfaces only as a returned error. -/
theorem c1_assembly_never_panics (stream : List RawPacket)
    (hwf : ∀ p ∈ stream, p.payload.length = 59) :
    (readFrom stream).1 ≠ Outcome.panic :=
  readFrom_ne_panic stream hwf

/-- Witness for C1 at a concrete one-report stream. -/
theorem c1_assembly_never_panics_witness :
    (∀ p ∈ [RawPacket.mk [1, 2, 3, 4] 0xbb (0 :: 1 :: 7 :: List.replicate 56 0)],
        p.payload.length = 59) ∧
    (readFrom [RawPacket.mk [1, 2, 3, 4] 0xbb (0 :: 1 :: 7 :: List.replicate 56 0)]).1
      ≠ Outcome.panic :=
  ⟨by decide, c1_assembly_never_panics _ (by decide)⟩

/-- Claim C2 counterexample: an init declaring length 7240 > 127 · 57 = 7239
is not rejected — assembly accepts it and returns a message whose reassembled
payload holds 7240 bytes, exceeding 127 · 57 (the code's bound is
127 · 64 = 8128). -/
theorem c2_oversize_counterexample :
    (readFrom (encodeMessage [0, 0, 0, 1] 0x90 (List.replicate 7240 0))).1
        = Outcome.ok ⟨[0, 0, 0, 1], .other 0x90 (List.replicate 7240 0)⟩ ∧
      127 * 57 < 7240 := by
  constructor
  · rw [readFrom_encode [0, 0, 0, 1] 0x90 (List.replicate 7240 0) (by norm_num)
      (by rw [List.length_replicate]; omega)]
    rfl
  · norm_num

/-- Claim C2 amended: the bound is `FIDO_CTAPHID_MAX_MESSAGE_SIZE`
= 127 · 64 = 8128: an init declaring a larger length is rejected with a
protocol error before any further report is read (the remainder of the stream
is returned unconsumed), and an assembled message's payload never exceeds
8128 bytes. -/
theorem c2_oversize_amended :
    (∀ (p : RawPacket) (i : InitPacket) (rest : List RawPacket),
        p.classify = .init i → 127 * 64 < i.length →
        readFrom (p :: rest) = (.error .outOfSpecLength, rest)) ∧
    (∀ (stream : List RawPacket) (m : Message) (rest : List RawPacket),
        readFrom stream = (.ok m, rest) → m.payloadLength ≤ 127 * 64) := by
  constructor
  · intro p i rest hc hlen
    rw [readFrom_cons_init hc, if_neg (by
      simp only [FIDO_CTAPHID_MAX_MESSAGE_SIZE, FIDO_CTAPHID_MAX_RECORD_SIZE]
      omega)]
  · intro stream m rest h
    have := readFrom_ok_length stream m rest h
    simpa [FIDO_CTAPHID_MAX_MESSAGE_SIZE, FIDO_CTAPHID_MAX_RECORD_SIZE] using this

/-- Witness for the amended C2 at a concrete init declaring length 8192. -/
theorem c2_oversize_amended_witness :
    readFrom [RawPacket.mk [0, 0, 0, 1] 0x90 (32 :: 0 :: List.replicate 57 0)]
      = (.error .outOfSpecLength, []) :=
  c2_oversize_amended.1 (RawPacket.mk [0, 0, 0, 1] 0x90 (32 :: 0 :: List.replicate 57 0))
    ⟨[0, 0, 0, 1], 0x90, 8192, List.replicate 57 0⟩ [] (by decide) (by norm_num)

/-- Claim C3: round-trip — for a payload of length L ∈ {0, 1, 57, 58,
127 · 57}, encoding it as one init report (channel c, command byte k with the
top bit set and other than keep-alive, declared length L) followed by the
needed continuations with sequence numbers 0, 1, 2, … and reassembling the
reports yields a message on channel c whose payload is byte-identical to the
original (hence of length exactly L), with the whole stream consumed. -/
theorem c3_roundtrip (c : List Nat) (k : Nat) (payload : List Nat)
    (hL : payload.length ∈ ([0, 1, 57, 58, 127 * 57] : List Nat))
    (hk : 0x80 ≤ k) (hk2 : k ≠ KEEPALIVE) :
    readFrom (encodeMessage c k payload) = (.ok ⟨c, .other k payload⟩, []) := by
  have hlen : payload.length ≤ 7609 := by
    simp only [List.mem_cons, List.not_mem_nil, or_false] at hL
    rcases hL with h | h | h | h | h <;> omega
  rw [readFrom_encode c k payload hk hlen]
  simp [finish, Command.decode, hk2]

/-- Witness for C3 at a concrete 1-byte payload. -/
theorem c3_roundtrip_witness :
    readFrom (encodeMessage [1, 2, 3, 4] 0x90 [7])
      = (.ok ⟨[1, 2, 3, 4], .other 0x90 [7]⟩, []) :=
  c3_roundtrip [1, 2, 3, 4] 0x90 [7] (by decide) (by decide) (by decide)

/-- Claim C4: mid-message (offset < declared length), a continuation report
is accepted — its payload appended and the consumed-continuation counter
`seq` advanced by one — iff its channel equals the init's channel and its
sequence number equals `seq`; a channel mismatch or sequence mismatch aborts
with the corresponding protocol error, returning no message.  The final
conjunct records that `readFrom` enters the loop with the counter at 0. -/
theorem c4_continuation_check (ch : List Nat) (k L : Nat) (p : RawPacket)
    (c : Continuation) (rest : List RawPacket) (buffer : List Nat) (offset seq : Nat)
    (hlt : offset < L) (hc : p.classify = .continuation c) :
    (c.channel = ch → c.sequence = seq →
        offset + c.payload.length ≤ FIDO_CTAPHID_MAX_MESSAGE_SIZE →
        assembleLoop ch k L (p :: rest) buffer offset seq =
          assembleLoop ch k L rest (buffer ++ c.payload)
            (offset + c.payload.length) (seq + 1)) ∧
    (c.channel ≠ ch →
        assembleLoop ch k L (p :: rest) buffer offset seq
          = (.error .wrongChannel, rest)) ∧
    (c.channel = ch → c.sequence ≠ seq →
        assembleLoop ch k L (p :: rest) buffer offset seq
          = (.error .wrongSequence, rest)) ∧
    (∀ (p2 : RawPacket) (i : InitPacket) (rest2 : List RawPacket),
        p2.classify = .init i → i.length ≤ FIDO_CTAPHID_MAX_MESSAGE_SIZE →
        readFrom (p2 :: rest2) =
          assembleLoop i.channel i.command i.length rest2 i.payload i.payload.length 0) := by
  refine ⟨?_, ?_, ?_, ?_⟩
  · intro h1 h2 h3
    rw [assembleLoop_cons_cont hc hlt, if_neg (by simp [h1]), if_neg (by simp [h2]),
      if_pos h3]
  · intro h1
    rw [assembleLoop_cons_cont hc hlt, if_pos h1]
  · intro h1 h2
    rw [assembleLoop_cons_cont hc hlt, if_neg (by simp [h1]), if_pos h2]
  · intro p2 i rest2 hci hlen
    rw [readFrom_cons_init hci, if_pos hlen]

/-- Witness for C4: a matching continuation is consumed at a concrete state. -/
theorem c4_continuation_check_witness :
    assembleLoop [1, 2, 3, 4] 0x90 116 [RawPacket.mk [1, 2, 3, 4] 0 (List.replicate 59 5)]
        (List.replicate 57 9) 57 0 =
      assembleLoop [1, 2, 3, 4] 0x90 116 [] (List.replicate 57 9 ++ List.replicate 59 5)
        (57 + (List.replicate 59 5).length) 1 :=
  (c4_continuation_check [1, 2, 3, 4] 0x90 116
      (RawPacket.mk [1, 2, 3, 4] 0 (List.replicate 59 5))
      ⟨[1, 2, 3, 4], 0, List.replicate 59 5⟩ [] (List.replicate 57 9) 57 0
      (by decide) (by decide)).1 rfl rfl (by decide)

/-- Claim C5 (deadline-aware read, modelled from the spec): a read that times
out with no bytes available yields the distinguished "no message yet" value
`noMsg`, not an error — immediately when no init has been seen, and also
mid-message, where it aborts the in-progress assembly entirely; stray
continuations while idle are skipped, not errors. -/
theorem c5_timeout_no_message :
    (∀ rest : List ReadEvent, readFromD (.timeout :: rest) = (.noMsg, rest)) ∧
    (∀ (p : RawPacket) (c : Continuation) (rest : List ReadEvent),
        p.classify = .continuation c →
        readFromD (.report p :: rest) = readFromD rest) ∧
    (∀ (ch : List Nat) (k L : Nat) (rest : List ReadEvent) (buffer : List Nat)
        (offset seq : Nat), offset < L →
        assembleLoopD ch k L (.timeout :: rest) buffer offset seq = (.noMsg, rest)) := by
  refine ⟨fun rest => rfl, ?_, ?_⟩
  · intro p c rest hc
    simp only [readFromD, hc]
  · intro ch k L rest buffer offset seq hlt
    simp only [assembleLoopD, if_pos hlt]

/-- Witness for C5: timeout after a stray continuation, and mid-message. -/
theorem c5_timeout_no_message_witness :
    readFromD [.report (RawPacket.mk [1, 2, 3, 4] 3 (List.replicate 59 0)), .timeout]
        = (.noMsg, []) ∧
    assembleLoopD [1, 2, 3, 4] 0x90 60 [.timeout] (List.replicate 57 0) 57 0
        = (.noMsg, []) := by
  constructor
  · rw [c5_timeout_no_message.2.1 (RawPacket.mk [1, 2, 3, 4] 3 (List.replicate 59 0))
      ⟨[1, 2, 3, 4], 3, List.replicate 59 0⟩ [.timeout] (by decide)]
    exact c5_timeout_no_message.1 []
  · exact c5_timeout_no_message.2.2 [1, 2, 3, 4] 0x90 60 [] (List.replicate 57 0) 57 0
      (by decide)

/-- Claim C6: for every input sequence fed to one device's state machine, the
emitted event stream never contains two consecutive events with the same
`needed` value; an event with `needed = true` is emitted only when the
hysteresis deadline is unset (and arms it), one with `needed = false` only
when it is set (and clears it). -/
theorem c6_alternation :
    (∀ steps : List DevStep,
        List.Chain' (fun a b => a ≠ b) (runSteps devInit steps).2) ∧
    (∀ (s t : DevState) (st : DevStep), stepFn s st = (t, some true) →
        s.deadline = none ∧ t.deadline ≠ none) ∧
    (∀ (s t : DevState) (st : DevStep), stepFn s st = (t, some false) →
        s.deadline ≠ none ∧ t.deadline = none) := by
  refine ⟨fun steps => (runSteps_chain steps devInit).1, ?_, ?_⟩
  · intro s t st h
    rcases stepFn_deadline s st with ⟨h1, h2⟩ | ⟨h1, h2⟩
    · rw [h] at h1
      simp at h1
    · rw [h] at h1 h2
      simp only [] at h1 h2
      have hs : s.deadline.isNone = true := (Option.some.inj h1).symm
      refine ⟨Option.isNone_iff_eq_none.mp hs, ?_⟩
      intro ht
      rw [ht, hs] at h2
      simp at h2
  · intro s t st h
    rcases stepFn_deadline s st with ⟨h1, h2⟩ | ⟨h1, h2⟩
    · rw [h] at h1
      simp at h1
    · rw [h] at h1 h2
      simp only [] at h1 h2
      have hs : s.deadline.isNone = false := (Option.some.inj h1).symm
      constructor
      · intro hn
        rw [hn] at hs
        simp at hs
      · rw [hs] at h2
        simp at h2
        exact h2

/-- Witness for C6 at concrete state-machine steps. -/
theorem c6_alternation_witness :
    (devInit.deadline = none ∧
        (DevState.mk (some 400) [1, 2, 3, 4]).deadline ≠ none) ∧
    ((DevState.mk (some 400) [1, 2, 3, 4]).deadline ≠ none ∧
        (DevState.mk none [1, 2, 3, 4]).deadline = none) :=
  ⟨c6_alternation.2.1 devInit ⟨some 400, [1, 2, 3, 4]⟩
      (.msg 0 ⟨[1, 2, 3, 4], .keepAlive 2⟩) (by decide),
    c6_alternation.2.2 ⟨some 400, [1, 2, 3, 4]⟩ ⟨none, [1, 2, 3, 4]⟩
      (.noMsg 400) (by decide)⟩

/-- Claim C7: a `KeepAlive{Processing}` on the channel that opened the armed
deadline refreshes it to `now + 400` without emitting an event; in the
scenario `UserPresenceNeeded` at t = 0, `Processing` (same channel) at
t = 200, then silence, the `needed = false` event fires at the t = 600 check
— the checks at t = 400 and t = 599 emit nothing. -/
theorem c7_hysteresis_extension :
    (∀ (d now : Nat) (ch : List Nat),
        stepFn ⟨some d, ch⟩ (.msg now ⟨ch, .keepAlive PROCESSING⟩)
          = (⟨some (now + HYSTERESIS_DURATION), ch⟩, none)) ∧
    runSteps devInit [DevStep.msg 0 ⟨[9, 9, 9, 9], .keepAlive 2⟩,
        DevStep.msg 200 ⟨[9, 9, 9, 9], .keepAlive 1⟩,
        DevStep.noMsg 400, DevStep.noMsg 599]
      = (⟨some 600, [9, 9, 9, 9]⟩, [true]) ∧
    runSteps devInit [DevStep.msg 0 ⟨[9, 9, 9, 9], .keepAlive 2⟩,
        DevStep.msg 200 ⟨[9, 9, 9, 9], .keepAlive 1⟩,
        DevStep.noMsg 400, DevStep.noMsg 599, DevStep.noMsg 600]
      = (⟨none, [9, 9, 9, 9]⟩, [true, false]) := by
  refine ⟨?_, by decide, by decide⟩
  intro d now ch
  simp [stepFn, UPNEEDED, PROCESSING]

/-- Claim C8 counterexample: the keep-alive decoder rejects the non-empty
2-byte payload [1, 1] — `KeepAlive::ref_from` demands exactly one byte — so
decoding does not succeed for every non-empty payload. -/
theorem c8_keepalive_counterexample :
    Command.decode KEEPALIVE [1, 1] = .error .invalidKeepAlive ∧
      ([1, 1] : List Nat) ≠ [] :=
  ⟨rfl, by decide⟩

/-- Claim C8 amended: keep-alive decoding succeeds exactly on payloads of
length 1, parsing that byte as the status; it fails with a decode error on
the empty payload and on every payload of two or more bytes.  Every other
command kind always decodes, passing the payload through uninterpreted. -/
theorem c8_keepalive_amended :
    (∀ s : Nat, Command.decode KEEPALIVE [s] = .ok (.keepAlive s)) ∧
    (∀ payload : List Nat, payload.length ≠ 1 →
        Command.decode KEEPALIVE payload = .error .invalidKeepAlive) ∧
    (∀ (k : Nat) (payload : List Nat), k ≠ KEEPALIVE →
        Command.decode k payload = .ok (.other k payload)) := by
  refine ⟨fun s => rfl, ?_, ?_⟩
  · intro payload h
    cases payload with
    | nil => rfl
    | cons a t =>
      cases t with
      | nil => simp at h
      | cons b u => rfl
  · intro k payload hk
    simp [Command.decode, hk]

/-- Witness for the amended C8 at concrete payloads. -/
theorem c8_keepalive_amended_witness :
    Command.decode KEEPALIVE [2] = .ok (.keepAlive 2) ∧
    Command.decode KEEPALIVE [] = .error .invalidKeepAlive ∧
    Command.decode 0x90 [1, 2] = .ok (.other 0x90 [1, 2]) :=
  ⟨c8_keepalive_amended.1 2, c8_keepalive_amended.2.1 [] (by decide),
    c8_keepalive_amended.2.2 0x90 [1, 2] (by decide)⟩

/-- Claim C9 counterexample: with two devices both becoming needed, the
second edge sends no token — the run over [(0, true), (1, true)] broadcasts
exactly one token, not one per edge. -/
theorem c9_broadcast_counterexample :
    (socketRun [] [(0, true), (1, true)]).2 = [Token.u2f1] ∧
    (socketRun [] [(0, true), (1, true)]).2.length ≠ 2 := by
  decide

/-- Claim C9 amended: the socket server broadcasts on transitions of the
aggregated "some device needs touch" state, not on every edge: `U2F_1` is
sent exactly when a `needed = true` edge arrives while the active set is
empty, `U2F_0` exactly when a `needed = false` edge leaves the active set
empty (removal happens first); consequently no run ever sends two `U2F_1`
tokens in a row. -/
theorem c9_broadcast_amended :
    (∀ (active : List Nat) (serial : Nat),
        (socketStep active serial true).2 = some Token.u2f1 ↔ active = []) ∧
    (∀ (active : List Nat) (serial : Nat),
        (socketStep active serial false).2 = some Token.u2f0 ↔
          active.erase serial = []) ∧
    (∀ evs : List (Nat × Bool), List.Chain' tokenPairOk (socketRun [] evs).2) := by
  refine ⟨?_, ?_, fun evs => socketRun_chain evs []⟩
  · intro active serial
    by_cases h : active = [] <;> simp [socketStep, h]
  · intro active serial
    by_cases h : active.erase serial = [] <;> simp [socketStep, h]

/-- Claim C10: the notification consumer keeps at most one active
notification per device serial (the map's keys stay duplicate-free along any
run from the empty start), and it is robust to non-alternating edges: a
`needed = true` edge for a serial that already has an active notification,
and a `needed = false` edge for a serial that has none, both leave the map
unchanged. -/
theorem c10_notify_robust :
    (∀ evs : List NotifyEvent, ((notifyRun [] evs).map Prod.fst).Nodup) ∧
    (∀ (active : List (Nat × Nat)) (serial handle : Nat) (showOk : Bool),
        serial ∈ active.map Prod.fst →
        notifyStep active (.need serial showOk handle) = active) ∧
    (∀ (active : List (Nat × Nat)) (serial : Nat),
        serial ∉ active.map Prod.fst →
        notifyStep active (.clear serial) = active) := by
  refine ⟨fun evs => notifyRun_nodup evs [] (by simp), ?_, ?_⟩
  · intro active serial handle showOk hm
    simp [notifyStep, hm]
  · intro active serial hm
    simp [notifyStep, hm]

/-- Witness for C10 at a concrete map and events. -/
theorem c10_notify_robust_witness :
    notifyStep [(5, 77)] (.need 5 true 88) = [(5, 77)] ∧
    notifyStep [(5, 77)] (.clear 6) = [(5, 77)] :=
  ⟨c10_notify_robust.2.1 [(5, 77)] 5 88 true (by decide),
    c10_notify_robust.2.2 [(5, 77)] 6 (by decide)⟩

